import Mathlib

/-!
Verification of the neural style transfer engine
(src/server/converter_engine/image_converter.py, class ImageConverter).

Tensors are embedded shallowly: a numpy/TF array is a flat row-major list of
rationals together with its shape, machine floats are idealised as exact
rationals, and the scalar loss values flowing through the optimisation loop
live in an extended type with NaN and +infinity so that the Python float
comparison semantics of the loop is preserved.  External library calls (PIL
image loading and resizing, the frozen VGG19 network, TF autodiff and the
Adam optimiser) are parameters of the embedding, collected in a Backend
structure; everything written in the repository itself is translated
directly.
-/

/-- A numpy/TF array: shape plus row-major flat data, scalars idealised
as rationals. -/
structure NdArray where
  shape : List ℕ
  data : List ℚ
deriving DecidableEq, Repr

/-- An 8-bit unsigned integer array, the output type of the deprocessing
step (np.clip(...).astype(uint8)). -/
structure U8Array where
  shape : List ℕ
  data : List ℕ
deriving DecidableEq, Repr

/-- Map over a flat data list with access to the flat index; out-of-range
reads default to 0 (never exercised on well-formed indices). -/
def mapIdxD (f : ℕ → ℚ → ℚ) (l : List ℚ) : List ℚ :=
  (List.range l.length).map (fun p => f p (l.getD p 0))

/-- Flat index of the element whose last-axis coordinate is reversed:
for channel count c, position p is sent to the position with channel
c - 1 - (p % c) in the same pixel.  Embeds the numpy slice x[:, :, ::-1]. -/
def flipLast (c p : ℕ) : ℕ := p - p % c + (c - 1 - p % c)

/-- Python 3 round (half rounds to the even neighbour), used by
img.resize((round(...), round(...)), ...). -/
def pyRound (q : ℚ) : ℤ :=
  let f := ⌊q⌋
  let r := q - f
  if r < 1/2 then f
  else if 1/2 < r then f + 1
  else if Even f then f else f + 1

/-- Python float modulo a % b = a - b * floor(a / b) for b > 0; the b = 0
case (where Python would raise ZeroDivisionError) is unreachable in the
loop because iteration = 0 makes the loop body never run. -/
def pyFMod (a b : ℚ) : ℚ := a - b * ⌊a / b⌋

/-- np value after np.clip(v, 0, 255).astype(uint8): clamp then truncate. -/
def toU8 (v : ℚ) : ℕ := (⌊min (max v 0) 255⌋).toNat

/-- The per-channel means of the VGG19 caffe preprocessing, also assembled
explicitly as norm_means = np.array([103.939, 116.779, 123.68]) at line 200
of the source. -/
def norm_means : List ℚ := [103.939, 116.779, 123.68]

/-- Lower clip bounds min_vals = -norm_means (line 201). -/
def min_vals : List ℚ := norm_means.map (fun m => -m)

/-- Upper clip bounds max_vals = 255 - norm_means (line 202). -/
def max_vals : List ℚ := norm_means.map (fun m => 255 - m)

/-- tf.keras.applications.vgg19.preprocess_input in the default caffe mode,
as invoked at line 40: reverse the channel axis (RGB to BGR) and subtract
the per-channel ImageNet means. -/
def preprocess_input (x : NdArray) : NdArray :=
  let c := x.shape.getLastD 0
  ⟨x.shape,
   mapIdxD (fun p _ => x.data.getD (flipLast c p) 0 - norm_means.getD (p % c) 0) x.data⟩

/-- np.expand_dims(img, axis=0) (line 39). -/
def expand_dims0 (x : NdArray) : NdArray := ⟨1 :: x.shape, x.data⟩

/-- np.squeeze(x, 0) (line 47): errors unless axis 0 has extent 1. -/
def np_squeeze0 (x : NdArray) : Except String NdArray :=
  match x.shape with
  | 1 :: rest => .ok ⟨rest, x.data⟩
  | _ => .error "cannot select an axis to squeeze out which has size not equal to one"

/-- numpy first-axis indexing t[0], as used on the model outputs at
lines 128, 129, 147 and 152: drops the leading (batch) axis. -/
def nd_index0 (x : NdArray) : NdArray :=
  ⟨x.shape.tail, x.data.take x.shape.tail.prod⟩

/-- ImageConverter._deprocess_img (lines 43-58): squeeze a rank-4 batch
axis, require rank 3 (the assert at line 48), add back the per-channel
means, reverse the channel axis, clip to [0, 255] and cast to uint8. -/
def deprocess_img (processed_img : NdArray) : Except String U8Array :=
  let step1 := if processed_img.shape.length = 4 then np_squeeze0 processed_img
               else .ok processed_img
  match step1 with
  | .error e => .error e
  | .ok x =>
    match x.shape with
    | [h, w, c] =>
      if c < 3 then
        .error "IndexError: index out of bounds for axis 2"
      else
        let d1 := mapIdxD (fun p v => v + norm_means.getD (p % c) 0) x.data
        let d2 := mapIdxD (fun p _ => d1.getD (flipLast c p) 0) d1
        .ok ⟨[h, w, c], d2.map toU8⟩
    | _ => .error "Input to de-process image must be an image of dimension [1, height, width, channel] or [height, width, channel]"

/-- The fixed content layer list hard-coded in the constructor (line 17). -/
def content_layers : List String := ["block5_conv2"]

/-- The fixed style layer list hard-coded in the constructor (lines 18-23). -/
def style_layers : List String :=
  ["block1_conv1", "block2_conv1", "block3_conv1", "block4_conv1", "block5_conv1"]

/-- self.num_content_layers (line 24). -/
def num_content_layers : ℕ := content_layers.length

/-- self.num_style_layers (line 25). -/
def num_style_layers : ℕ := style_layers.length

/-- ImageConverter.content_loss (lines 83-84):
tf.reduce_mean(tf.square(base_content - target)). -/
def content_loss (base_content target : NdArray) : ℚ :=
  let d := List.zipWith (fun x y => x - y) base_content.data target.data
  ((d.map (fun v => v * v)).sum) / (d.length : ℚ)

/-- ImageConverter.gram_matrix (lines 87-93): reshape to [-1, channels],
form the transposed product and divide by the number of rows. -/
def gram_matrix (input_tensor : NdArray) : List (List ℚ) :=
  let channels := input_tensor.shape.getLastD 0
  let n := input_tensor.data.length / channels
  (List.range channels).map (fun i =>
    (List.range channels).map (fun j =>
      (((List.range n).map (fun r =>
          input_tensor.data.getD (r * channels + i) 0 *
          input_tensor.data.getD (r * channels + j) 0)).sum) / (n : ℚ)))

/-- tf.reduce_mean(tf.square(a - b)) for two matrices of equal shape. -/
def mse_mat (a b : List (List ℚ)) : ℚ :=
  let d := List.zipWith (fun r1 r2 => List.zipWith (fun x y => x - y) r1 r2) a b
  let sq := (d.map (fun row => (row.map (fun v => v * v)).sum)).sum
  let numel := (d.map List.length).sum
  sq / (numel : ℚ)

/-- ImageConverter.style_loss (lines 95-102): mean squared difference
between the Gram matrix of the base features and the target Gram matrix. -/
def style_loss (base_style : NdArray) (gram_target : List (List ℚ)) : ℚ :=
  let gram_style := gram_matrix base_style
  mse_mat gram_style gram_target

/-- ImageConverter.compute_loss (lines 133-159): run the model on the
candidate image, split the outputs into style then content parts by
position, accumulate equally weighted per-layer losses, scale by the
configured weights and return (total, style score, content score). -/
def compute_loss (model : NdArray → List NdArray) (loss_weights : ℚ × ℚ)
    (init_image : NdArray) (gram_style_features : List (List (List ℚ)))
    (content_features : List NdArray) : ℚ × ℚ × ℚ :=
  let style_weight := loss_weights.1
  let content_weight := loss_weights.2
  let model_outputs := model init_image
  let style_output_features := model_outputs.take num_style_layers
  let content_output_features := model_outputs.drop num_style_layers
  let weight_per_style_layer : ℚ := 1 / (num_style_layers : ℚ)
  let style_score :=
    (gram_style_features.zip style_output_features).foldl
      (fun acc p => acc + weight_per_style_layer * style_loss (nd_index0 p.2) p.1) 0
  let weight_per_content_layer : ℚ := 1 / (num_content_layers : ℚ)
  let content_score :=
    (content_features.zip content_output_features).foldl
      (fun acc p => acc + weight_per_content_layer * content_loss (nd_index0 p.2) p.1) 0
  let style_score := style_score * style_weight
  let content_score := content_score * content_weight
  (style_score + content_score, style_score, content_score)

/-- A scalar loss value as produced by the TF float backend: finite,
+infinity (the initial best loss float(inf) at line 186), or NaN.  The
comparison loss < best_loss at line 214 follows IEEE semantics: any
comparison against NaN is false. -/
inductive FVal where
  | nan : FVal
  | inf : FVal
  | fin : ℚ → FVal
deriving DecidableEq, Repr

/-- Python float strict comparison, with NaN incomparable and fin < inf. -/
def FVal.flt : FVal → FVal → Bool
  | _, .nan => false
  | .nan, _ => false
  | .inf, _ => false
  | .fin _, .inf => true
  | .fin a, .fin b => decide (a < b)

/-- Non-strict order used to state that best_loss never increases. -/
def FVal.fle (a b : FVal) : Prop := a = b ∨ FVal.flt a b = true

instance (a b : FVal) : Decidable (FVal.fle a b) := by
  unfold FVal.fle; infer_instance

/-- The keyword-argument bundle cfg built at lines 188-194, minus the model
and the mutable candidate image which are passed separately. -/
structure LossConfig where
  loss_weights : ℚ × ℚ
  gram_style_features : List (List (List ℚ))
  content_features : List NdArray
deriving DecidableEq

/-- The size information PIL.Image.open exposes; img.size = (width, height). -/
structure RawImage where
  width : ℕ
  height : ℕ
deriving DecidableEq, Repr

/-- The external compute backend: PIL image loading and resizing, the
frozen pretrained VGG19 feature extractor (_get_model, lines 60-80), the
gradient-and-loss evaluation performed under tf.GradientTape
(compute_grads, lines 161-166, whose loss values are floats and may be
NaN), and the Adam optimiser opt.apply_gradients with its internal state
OptSt (line 184, lr=5, beta1=0.99, epsilon=0.1).  All of these live in
external libraries; the repository code treats them as opaque calls. -/
structure Backend (OptSt : Type) where
  openImage : String → RawImage
  loadResized : String → ℕ → ℕ → NdArray
  model : NdArray → List NdArray
  computeGrads : LossConfig → NdArray → NdArray × FVal × FVal × FVal
  optInit : OptSt
  applyGradients : OptSt → NdArray → NdArray → OptSt × NdArray

/-- The constructor parameters of ImageConverter (lines 11-16); the layer
name lists are fixed constants, see content_layers and style_layers. -/
structure ImageConverter where
  content_path : String
  style_path : String
  iteration : ℕ := 30
  max_dim : ℕ := 512
deriving DecidableEq, Repr

/-- The resized image array produced by lines 29-35 of
_load_and_process_img: open the image, scale so the longer side equals
max_dim, resize, and convert to a numeric array.  The pixel content of the
resized image comes from the PIL backend oracle. -/
def resized_arr_of {OptSt : Type} (conv : ImageConverter) (B : Backend OptSt)
    (img_path : String) : NdArray :=
  let img := B.openImage img_path
  let long : ℕ := max img.width img.height
  let scale : ℚ := (conv.max_dim : ℚ) / (long : ℚ)
  let new_w : ℕ := (pyRound ((img.width : ℚ) * scale)).toNat
  let new_h : ℕ := (pyRound ((img.height : ℚ) * scale)).toNat
  B.loadResized img_path new_w new_h

/-- The value computed by ImageConverter._load_and_process_img
(lines 28-41): resized array, batch dimension, VGG19 preprocessing. -/
def load_processed {OptSt : Type} (conv : ImageConverter) (B : Backend OptSt)
    (img_path : String) : NdArray :=
  preprocess_input (expand_dims0 (resized_arr_of conv B img_path))

/-- _load_and_process_img with its observable effect: reading the file at
img_path is recorded on an explicit trace of loaded paths. -/
def load_and_process_img {OptSt : Type} (conv : ImageConverter) (B : Backend OptSt)
    (img_path : String) (tr : List String) : NdArray × List String :=
  (load_processed conv B img_path, tr ++ [img_path])

/-- ImageConverter.run_gradient_descent (lines 105-130): load and
preprocess both images, feed each through the model, and slice the output
lists positionally into per-layer style and content features with the
batch axis removed. -/
def run_gradient_descent {OptSt : Type} (conv : ImageConverter) (B : Backend OptSt)
    (model : NdArray → List NdArray) (content_path style_path : String)
    (tr : List String) : (List NdArray × List NdArray) × List String :=
  let r1 := load_and_process_img conv B content_path tr
  let content_image := r1.1
  let r2 := load_and_process_img conv B style_path r1.2
  let style_image := r2.1
  let style_outputs := model style_image
  let content_outputs := model content_image
  let style_features := (style_outputs.take num_style_layers).map nd_index0
  let content_features := (content_outputs.drop num_style_layers).map nd_index0
  ((style_features, content_features), r2.2)

/-- tf.clip_by_value(init_image, min_vals, max_vals) (line 211): clamp
each element to the per-channel interval, the channel being the last-axis
coordinate of the flat position. -/
def clip_by_value_ch (x : NdArray) : NdArray :=
  let c := x.shape.getLastD 0
  ⟨x.shape,
   mapIdxD (fun p v =>
     min (max v (min_vals.getD (p % c) 0)) (max_vals.getD (p % c) 0)) x.data⟩

/-- The mutable state of the optimisation loop (lines 186 and 205-223):
optimiser state, candidate image tensor, best loss (initially +infinity),
best deprocessed image (initially absent), and the display snapshots. -/
structure LoopState (OptSt : Type) where
  optS : OptSt
  init_image : NdArray
  best_loss : FVal
  best_img : Option U8Array
  imgs : List U8Array

/-- One iteration of the loop body (lines 206-223): compute gradients and
loss at the current image, apply the optimiser step, clip, record the best
result on strict improvement, and append a display snapshot at the fixed
cadence.  A shape failure in _deprocess_img aborts the run. -/
def stepOf {OptSt : Type} (B : Backend OptSt) (cfg : LossConfig)
    (display_interval : ℚ) (i : ℕ) (s : LoopState OptSt) :
    Except String (LoopState OptSt) :=
  let gl := B.computeGrads cfg s.init_image
  let grads := gl.1
  let loss := gl.2.1
  let ou := B.applyGradients s.optS grads s.init_image
  let clipped := clip_by_value_ch ou.2
  let s1 : LoopState OptSt := ⟨ou.1, clipped, s.best_loss, s.best_img, s.imgs⟩
  let afterBest : Except String (LoopState OptSt) :=
    if FVal.flt loss s1.best_loss then
      match deprocess_img clipped with
      | .ok u => .ok ⟨s1.optS, s1.init_image, loss, some u, s1.imgs⟩
      | .error e => .error e
    else .ok s1
  match afterBest with
  | .error e => .error e
  | .ok s2 =>
    if pyFMod (i : ℚ) display_interval = 0 then
      match deprocess_img s2.init_image with
      | .ok u => .ok ⟨s2.optS, s2.init_image, s2.best_loss, s2.best_img, s2.imgs ++ [u]⟩
      | .error e => .error e
    else .ok s2

/-- The for-loop at line 205 over the listed iteration indices. -/
def styleLoop {OptSt : Type} (B : Backend OptSt) (cfg : LossConfig)
    (display_interval : ℚ) : List ℕ → LoopState OptSt →
    Except String (LoopState OptSt)
  | [], s => .ok s
  | i :: rest, s =>
    match stepOf B cfg display_interval i s with
    | .ok s1 => styleLoop B cfg display_interval rest s1
    | .error e => .error e

/-- The total loss the backend reports for a candidate image. -/
def total_loss_at {OptSt : Type} (B : Backend OptSt) (cfg : LossConfig)
    (img : NdArray) : FVal :=
  (B.computeGrads cfg img).2.1

/-- ImageConverter.run_style_transfer (lines 169-225).  Returns the best
deprocessed image (absent when no iteration improved the loss) or the
error that aborted the run, together with the trace of image loads. -/
def run_style_transfer {OptSt : Type} (conv : ImageConverter) (B : Backend OptSt)
    (content_weight : ℚ := 1000) (style_weight : ℚ := 1/100)
    (tr : List String) : Except String (Option U8Array) × List String :=
  let model := B.model
  let r1 := run_gradient_descent conv B model conv.content_path conv.style_path tr
  let style_features := r1.1.1
  let content_features := r1.1.2
  let gram_style_features := style_features.map gram_matrix
  let r2 := load_and_process_img conv B conv.content_path r1.2
  let init_image := r2.1
  let loss_weights := (style_weight, content_weight)
  let cfg : LossConfig := ⟨loss_weights, gram_style_features, content_features⟩
  let num_rows : ℕ := 2
  let num_cols : ℕ := 5
  let display_interval : ℚ := (conv.iteration : ℚ) / ((num_rows * num_cols : ℕ) : ℚ)
  let s0 : LoopState OptSt := ⟨B.optInit, init_image, FVal.inf, none, []⟩
  match styleLoop B cfg display_interval (List.range conv.iteration) s0 with
  | .ok s => (.ok s.best_img, r2.2)
  | .error e => (.error e, r2.2)

/-- The style and content feature representations computed during setup
(the call at line 177), as pure values. -/
def features_of {OptSt : Type} (conv : ImageConverter) (B : Backend OptSt) :
    List NdArray × List NdArray :=
  (run_gradient_descent conv B B.model conv.content_path conv.style_path []).1

/-- The loss configuration assembled at lines 187-194, as a pure value. -/
def cfgOf {OptSt : Type} (conv : ImageConverter) (B : Backend OptSt)
    (content_weight style_weight : ℚ) : LossConfig :=
  ⟨(style_weight, content_weight),
   (features_of conv B).1.map gram_matrix,
   (features_of conv B).2⟩

/-- The initial candidate image set at line 181, as a pure value. -/
def init_image_of {OptSt : Type} (conv : ImageConverter) (B : Backend OptSt) : NdArray :=
  load_processed conv B conv.content_path

/-- The display cadence computed at lines 197-199. -/
def display_interval_of (conv : ImageConverter) : ℚ :=
  (conv.iteration : ℚ) / 10

/-- Shape of the returned array, when the run succeeded with an image. -/
def resultShape (r : Except String (Option U8Array)) : Option (List ℕ) :=
  match r with
  | .ok (some u) => some u.shape
  | _ => none

/-- An array of 8-bit values of the expected spatial extent. -/
def goodU8 (hh ww : ℕ) (u : U8Array) : Prop :=
  u.shape = [hh, ww, 3] ∧ ∀ v ∈ u.data, v < 256

/-! ### Concrete fixtures used by the witnesses -/

def testConv : ImageConverter := ⟨"c.png", "s.png", 5, 64⟩
def testConv128 : ImageConverter := ⟨"c.png", "s.png", 5, 128⟩
def testConv0 : ImageConverter := ⟨"c.png", "s.png", 0, 64⟩
def pixelConv : ImageConverter := ⟨"c.png", "s.png", 5, 1⟩

def testBackend : Backend Unit :=
  ⟨fun _ => ⟨64, 64⟩, fun _ w h => ⟨[h, w, 3], []⟩, fun _ => [],
   fun _ _ => (⟨[], []⟩, .fin 0, .fin 0, .fin 0), (), fun o _ img => (o, img)⟩

def nanBackend : Backend Unit :=
  ⟨fun _ => ⟨64, 64⟩, fun _ w h => ⟨[h, w, 3], []⟩, fun _ => [],
   fun _ _ => (⟨[], []⟩, .nan, .nan, .nan), (), fun o _ img => (o, img)⟩

def pixelBackend : Backend Unit :=
  ⟨fun _ => ⟨1, 1⟩, fun _ _ _ => ⟨[1, 1, 3], [5, 10, 200]⟩, fun _ => [],
   fun _ _ => (⟨[], []⟩, .fin 0, .fin 0, .fin 0), (), fun o _ img => (o, img)⟩

def testCfg : LossConfig := ⟨(1/100, 1000), [], []⟩
def testState : LoopState Unit := ⟨(), ⟨[1, 1, 1, 3], []⟩, FVal.inf, none, []⟩
def testState1 : LoopState Unit := ⟨(), ⟨[1, 1, 1, 3], []⟩, FVal.fin 0, some ⟨[1, 1, 3], []⟩, []⟩
def clipState : LoopState Unit := ⟨(), ⟨[1, 1, 1, 3], [-200, 0, 300]⟩, FVal.inf, none, []⟩
def clipState1 : LoopState Unit :=
  ⟨(), ⟨[1, 1, 1, 3], [-103939/1000, 0, 3283/25]⟩, FVal.inf, none, []⟩


/-! ### List and index helper lemmas -/

lemma length_mapIdxD (f : ℕ → ℚ → ℚ) (l : List ℚ) :
    (mapIdxD f l).length = l.length := by
  simp [mapIdxD]

lemma getD_mapIdxD (f : ℕ → ℚ → ℚ) (l : List ℚ) (p : ℕ) (hp : p < l.length) (d : ℚ) :
    (mapIdxD f l).getD p d = f p (l.getD p 0) := by
  unfold mapIdxD
  rw [List.getD_eq_getElem _ d (by simpa using hp)]
  simp

lemma foldl_add_mul {α : Type} (w : ℚ) (f : α → ℚ) (l : List α) (a : ℚ) :
    l.foldl (fun acc x => acc + w * f x) a = a + w * (l.map f).sum := by
  induction l generalizing a with
  | nil => simp
  | cons x t ih => simp only [List.foldl_cons, List.map_cons, List.sum_cons, ih]; ring

lemma sum_sq_nonneg (l : List ℚ) : 0 ≤ (l.map (fun v => v * v)).sum := by
  induction l with
  | nil => simp
  | cons a t ih =>
    simp only [List.map_cons, List.sum_cons]
    nlinarith [mul_self_nonneg a]

lemma sum_sq_eq_zero_iff (l : List ℚ) :
    (l.map (fun v => v * v)).sum = 0 ↔ ∀ v ∈ l, v = 0 := by
  induction l with
  | nil => simp
  | cons a t ih =>
    simp only [List.map_cons, List.sum_cons, List.mem_cons]
    constructor
    · intro h
      have ha := mul_self_nonneg a
      have ht := sum_sq_nonneg t
      have ha0 : a * a = 0 := by linarith
      have ht0 : (t.map (fun v => v * v)).sum = 0 := by linarith
      rintro v (rfl | hv)
      · exact mul_self_eq_zero.mp ha0
      · exact ih.mp ht0 v hv
    · intro h
      have ha : a = 0 := h a (Or.inl rfl)
      have ht : (t.map (fun v => v * v)).sum = 0 := ih.mpr (fun v hv => h v (Or.inr hv))
      rw [ha, ht]; ring

lemma zipWith_sub_eq_iff (l1 l2 : List ℚ) (h : l1.length = l2.length) :
    (∀ v ∈ List.zipWith (fun x y => x - y) l1 l2, v = 0) ↔ l1 = l2 := by
  induction l1 generalizing l2 with
  | nil => cases l2 <;> simp_all
  | cons a t ih =>
    cases l2 with
    | nil => simp at h
    | cons b t2 =>
      simp only [List.zipWith_cons_cons, List.mem_cons, List.cons.injEq]
      constructor
      · intro hz
        have hab : a - b = 0 := hz _ (Or.inl rfl)
        refine ⟨by linarith, (ih t2 (by simpa using h)).mp (fun v hv => hz v (Or.inr hv))⟩
      · rintro ⟨rfl, rfl⟩ v hv
        rcases hv with rfl | hv
        · ring
        · exact (ih t rfl).mpr rfl v hv

lemma mse_rows_eq (a b : List (List ℚ)) (hlen : a.map List.length = b.map List.length)
    (h : ∀ r ∈ List.zipWith (fun r1 r2 => List.zipWith (fun x y => x - y) r1 r2) a b,
          (r.map (fun v => v * v)).sum = 0) : a = b := by
  induction a generalizing b with
  | nil => cases b <;> simp_all
  | cons r t ih =>
    cases b with
    | nil => simp at hlen
    | cons r2 t2 =>
      simp only [List.map_cons, List.cons.injEq] at hlen
      simp only [List.zipWith_cons_cons, List.mem_cons] at h
      have hrow : r = r2 := (zipWith_sub_eq_iff r r2 hlen.1).mp
        (fun v hv => (sum_sq_eq_zero_iff _).mp (h _ (Or.inl rfl)) v hv)
      rw [hrow, ih t2 hlen.2 (fun rr hrr => h rr (Or.inr hrr))]

lemma list_sum_nonneg (l : List ℚ) (h : ∀ x ∈ l, 0 ≤ x) : 0 ≤ l.sum := by
  induction l with
  | nil => simp
  | cons a t ih =>
    simp only [List.sum_cons]
    have := h a (List.mem_cons_self a t)
    have := ih (fun x hx => h x (List.mem_cons_of_mem a hx))
    linarith

lemma list_sum_eq_zero (l : List ℚ) (h : ∀ x ∈ l, 0 ≤ x) (hs : l.sum = 0) :
    ∀ x ∈ l, x = 0 := by
  induction l with
  | nil => simp
  | cons a t ih =>
    simp only [List.sum_cons] at hs
    have ha := h a (List.mem_cons_self a t)
    have ht := list_sum_nonneg t (fun x hx => h x (List.mem_cons_of_mem a hx))
    have ha0 : a = 0 := by linarith
    have ht0 : t.sum = 0 := by linarith
    intro x hx
    rcases List.mem_cons.mp hx with rfl | hx2
    · exact ha0
    · exact ih (fun y hy => h y (List.mem_cons_of_mem a hy)) ht0 x hx2

lemma mse_mat_self (a : List (List ℚ)) : mse_mat a a = 0 := by
  simp only [mse_mat]
  rw [List.zipWith_same]
  have hrows : ∀ r : List ℚ,
      ((List.zipWith (fun x y => x - y) r r).map (fun v => v * v)).sum = 0 := by
    intro r
    rw [sum_sq_eq_zero_iff]
    intro v hv
    rw [List.zipWith_same] at hv
    simp only [List.mem_map] at hv
    obtain ⟨y, _, rfl⟩ := hv
    ring
  have hall : ((a.map (fun r => List.zipWith (fun x y => x - y) r r)).map
      (fun row => (row.map (fun v => v * v)).sum)).sum = 0 := by
    apply List.sum_eq_zero
    intro x hx
    rw [List.map_map] at hx
    simp only [List.mem_map, Function.comp] at hx
    obtain ⟨r, _, rfl⟩ := hx
    exact hrows r
  rw [hall, zero_div]

lemma mse_mat_eq_zero_iff (a b : List (List ℚ))
    (hlen : a.map List.length = b.map List.length) :
    mse_mat a b = 0 ↔ a = b := by
  constructor
  · intro h
    unfold mse_mat at h
    rcases div_eq_zero_iff.mp h with hsq | hnum
    · refine mse_rows_eq a b hlen ?_
      intro r hr
      refine list_sum_eq_zero _ ?_ hsq _ (List.mem_map_of_mem _ hr)
      intro x hx
      simp only [List.mem_map] at hx
      obtain ⟨row, _, rfl⟩ := hx
      exact sum_sq_nonneg row
    · have hnum0 : ((List.zipWith (fun r1 r2 => List.zipWith (fun x y => x - y) r1 r2) a b).map
          List.length).sum = 0 := by exact_mod_cast hnum
      have hrows0 := List.sum_eq_zero_iff.mp hnum0
      refine mse_rows_eq a b hlen ?_
      intro r hr
      have : r.length = 0 := hrows0 _ (List.mem_map_of_mem _ hr)
      rw [List.eq_nil_of_length_eq_zero this]
      simp
  · rintro rfl
    exact mse_mat_self a

/-- C7: for every feature tensor x, style_loss of x against its own Gram
matrix is 0; and for a target Gram matrix of the same dimensions as the
Gram matrix of the base, the style loss is zero if and only if the Gram
matrix of the base equals the target. -/
theorem C7_style_loss_gram :
    (∀ x : NdArray, style_loss x (gram_matrix x) = 0) ∧
    (∀ (x : NdArray) (tg : List (List ℚ)),
      (gram_matrix x).map List.length = tg.map List.length →
      (style_loss x tg = 0 ↔ gram_matrix x = tg)) := by
  constructor
  · intro x
    unfold style_loss
    exact mse_mat_self _
  · intro x tg hlen
    unfold style_loss
    exact mse_mat_eq_zero_iff _ _ hlen

/-- Witness for C7 at the concrete feature tensor [[1, 2]] of shape
[1, 2], whose Gram matrix is [[1, 2], [2, 4]]. -/
theorem C7_witness :
    style_loss ⟨[1, 2], [1, 2]⟩ (gram_matrix ⟨[1, 2], [1, 2]⟩) = 0 ∧
    (style_loss ⟨[1, 2], [1, 2]⟩ [[1, 2], [2, 4]] = 0 ↔
      gram_matrix ⟨[1, 2], [1, 2]⟩ = [[1, 2], [2, 4]]) :=
  ⟨C7_style_loss_gram.1 ⟨[1, 2], [1, 2]⟩,
   C7_style_loss_gram.2 ⟨[1, 2], [1, 2]⟩ [[1, 2], [2, 4]] (by decide)⟩

/-- C6: compute_loss returns the triple (total, style component, content
component), where the style component is the average of the per-layer
style losses over all style layers times style_weight, the content
component is the average of the per-layer content losses over all content
layers times content_weight, and the total is their sum. -/
theorem C6_compute_loss_decomposition (model : NdArray → List NdArray)
    (style_weight content_weight : ℚ) (init_image : NdArray)
    (gram_style_features : List (List (List ℚ))) (content_features : List NdArray)
    (h1 : gram_style_features.length = num_style_layers)
    (h2 : content_features.length = num_content_layers)
    (h3 : (model init_image).length = num_style_layers + num_content_layers) :
    ((gram_style_features.zip ((model init_image).take num_style_layers)).map
        (fun p => style_loss (nd_index0 p.2) p.1)).length = num_style_layers ∧
    ((content_features.zip ((model init_image).drop num_style_layers)).map
        (fun p => content_loss (nd_index0 p.2) p.1)).length = num_content_layers ∧
    compute_loss model (style_weight, content_weight) init_image
        gram_style_features content_features =
      (style_weight *
          (((gram_style_features.zip ((model init_image).take num_style_layers)).map
              (fun p => style_loss (nd_index0 p.2) p.1)).sum / (num_style_layers : ℚ)) +
        content_weight *
          (((content_features.zip ((model init_image).drop num_style_layers)).map
              (fun p => content_loss (nd_index0 p.2) p.1)).sum / (num_content_layers : ℚ)),
       style_weight *
          (((gram_style_features.zip ((model init_image).take num_style_layers)).map
              (fun p => style_loss (nd_index0 p.2) p.1)).sum / (num_style_layers : ℚ)),
       content_weight *
          (((content_features.zip ((model init_image).drop num_style_layers)).map
              (fun p => content_loss (nd_index0 p.2) p.1)).sum / (num_content_layers : ℚ))) := by
  refine ⟨?_, ?_, ?_⟩
  · simp only [List.length_map, List.length_zip, List.length_take, h1, h3]
    omega
  · simp only [List.length_map, List.length_zip, List.length_drop, h2, h3]
    omega
  · simp only [compute_loss]
    rw [foldl_add_mul, foldl_add_mul]
    have hns : ((num_style_layers : ℕ) : ℚ) ≠ 0 := by norm_num [num_style_layers, style_layers]
    have hnc : ((num_content_layers : ℕ) : ℚ) ≠ 0 := by
      norm_num [num_content_layers, content_layers]
    simp only [Prod.mk.injEq]
    refine ⟨?_, ?_, ?_⟩ <;> field_simp <;> ring

/-- Witness for C6 at a concrete model producing six zero feature maps. -/
theorem C6_witness :
    (List.replicate 5 ([[(0 : ℚ)]])).length = num_style_layers ∧
    ([(⟨[1, 1, 1], [0]⟩ : NdArray)]).length = num_content_layers ∧
    ((fun _ : NdArray => List.replicate 6 (⟨[1, 1, 1, 1], [0]⟩ : NdArray))
        ⟨[1, 1, 1, 3], [0, 0, 0]⟩).length = num_style_layers + num_content_layers ∧
    compute_loss (fun _ => List.replicate 6 ⟨[1, 1, 1, 1], [0]⟩) (1/100, 1000)
      ⟨[1, 1, 1, 3], [0, 0, 0]⟩ (List.replicate 5 [[0]]) [⟨[1, 1, 1], [0]⟩] =
      (0, 0, 0) := by
  refine ⟨rfl, rfl, rfl, ?_⟩
  have h := C6_compute_loss_decomposition
    (fun _ => List.replicate 6 ⟨[1, 1, 1, 1], [0]⟩) (1/100) 1000
    ⟨[1, 1, 1, 3], [0, 0, 0]⟩ (List.replicate 5 [[0]]) [⟨[1, 1, 1], [0]⟩]
    rfl rfl rfl
  rw [h.2.2]
  have hx : style_loss (nd_index0 ⟨[1, 1, 1, 1], [0]⟩) [[(0 : ℚ)]] = 0 := by
    norm_num [style_loss, gram_matrix, mse_mat, nd_index0]
  have hy : content_loss (nd_index0 ⟨[1, 1, 1, 1], [0]⟩) ⟨[1, 1, 1], [0]⟩ = 0 := by
    norm_num [content_loss, nd_index0]
  norm_num [num_style_layers, num_content_layers, style_layers, content_layers,
    List.replicate, hx, hy]

lemma toU8_lt_256 (v : ℚ) : toU8 v < 256 := by
  unfold toU8
  have h2 : ⌊min (max v 0) 255⌋ ≤ (255 : ℤ) := by
    have := Int.floor_le_floor (min_le_right (max v 0) (255 : ℚ))
    simpa using this
  omega

/-- Rank-4 input with unit batch axis: deprocessing succeeds, the batch
axis is removed, and every output value fits in 8 unsigned bits. -/
lemma deprocess_img_ok (x : NdArray) (hh ww : ℕ) (h : x.shape = [1, hh, ww, 3]) :
    ∃ u, deprocess_img x = .ok u ∧ u.shape = [hh, ww, 3] ∧
         ∀ v ∈ u.data, v < 256 := by
  obtain ⟨sh, data⟩ := x
  simp only at h
  subst h
  refine ⟨_, rfl, rfl, ?_⟩
  intro v hv
  simp only [deprocess_img, np_squeeze0] at hv
  norm_num at hv
  obtain ⟨y, _, rfl⟩ := hv
  exact toU8_lt_256 y

lemma toU8_natCast (n : ℕ) (hn : n ≤ 255) : toU8 (n : ℚ) = n := by
  unfold toU8
  have h0 : max ((n : ℚ)) 0 = (n : ℚ) := max_eq_left (by positivity)
  have h1 : min ((n : ℚ)) 255 = (n : ℚ) := min_eq_left (by exact_mod_cast hn)
  rw [h0, h1, Int.floor_natCast]
  exact Int.toNat_natCast n

lemma flipLast3_lt (p n : ℕ) (hp : p < n) (hmod : n % 3 = 0) : flipLast 3 p < n := by
  unfold flipLast; omega

lemma flipLast3_flipLast3 (p : ℕ) : flipLast 3 (flipLast 3 p) = p := by
  unfold flipLast; omega

/-- The numeric core of the roundtrip: preprocessing a well-formed
H x W x 3 image with a unit batch axis and then deprocessing recovers the
flat pixel data exactly, given integral pixel values in [0, 255]. -/
lemma roundtrip_core (d : List ℚ) (h w : ℕ) (hlen : d.length = h * w * 3)
    (hint : ∀ v ∈ d, ∃ n : ℕ, v = (n : ℚ) ∧ n ≤ 255) :
    ∃ u, deprocess_img (preprocess_input ⟨[1, h, w, 3], d⟩) = .ok u ∧
         u.shape = [h, w, 3] ∧ u.data.map (fun n : ℕ => (n : ℚ)) = d := by
  have hmod : d.length % 3 = 0 := by omega
  set pd := mapIdxD (fun p _ => d.getD (flipLast 3 p) 0 - norm_means.getD (p % 3) 0) d
    with hpd
  set d1 := mapIdxD (fun p v => v + norm_means.getD (p % 3) 0) pd with hd1
  set d2 := mapIdxD (fun p _ => d1.getD (flipLast 3 p) 0) d1 with hd2
  have hstep : deprocess_img (preprocess_input ⟨[1, h, w, 3], d⟩) =
      .ok ⟨[h, w, 3], d2.map toU8⟩ := rfl
  have lpd : pd.length = d.length := length_mapIdxD _ _
  have ld1 : d1.length = d.length := (length_mapIdxD _ _).trans lpd
  have ld2 : d2.length = d.length := (length_mapIdxD _ _).trans ld1
  have hd2d : d2 = d := by
    apply List.ext_getElem (by rw [ld2])
    intro i hi1 hi2
    have hid : i < d.length := hi2
    have hfd : flipLast 3 i < d.length := flipLast3_lt i d.length hid hmod
    rw [← List.getD_eq_getElem d2 0 hi1, ← List.getD_eq_getElem d 0 hi2]
    rw [hd2, getD_mapIdxD _ _ _ (by omega)]
    rw [hd1, getD_mapIdxD _ _ _ (by omega)]
    rw [hpd, getD_mapIdxD _ _ _ (by omega)]
    rw [flipLast3_flipLast3]
    ring
  refine ⟨⟨[h, w, 3], d2.map toU8⟩, hstep, rfl, ?_⟩
  rw [hd2d, List.map_map]
  have hcast : ∀ v ∈ d, ((fun n : ℕ => (n : ℚ)) ∘ toU8) v = id v := by
    intro v hv
    obtain ⟨n, rfl, hn⟩ := hint v hv
    simp only [Function.comp, id]
    rw [toU8_natCast n hn]
  rw [List.map_congr_left hcast, List.map_id]

/-- C5: preprocessing via _load_and_process_img (applied to the loaded,
resized image array supplied by the PIL backend) followed immediately by
_deprocess_img reproduces the pixel values of that array exactly,
provided the array is a well-formed H x W x 3 image whose entries are
integers in [0, 255], so that the final clip to [0, 255] never fires. -/
theorem C5_roundtrip {O : Type} (conv : ImageConverter) (B : Backend O) (path : String)
    (h w : ℕ)
    (hsh : (resized_arr_of conv B path).shape = [h, w, 3])
    (hlen : (resized_arr_of conv B path).data.length = h * w * 3)
    (hint : ∀ v ∈ (resized_arr_of conv B path).data, ∃ n : ℕ, v = (n : ℚ) ∧ n ≤ 255) :
    ∃ u, deprocess_img (load_processed conv B path) = .ok u ∧
         u.shape = [h, w, 3] ∧
         u.data.map (fun n : ℕ => (n : ℚ)) = (resized_arr_of conv B path).data := by
  have hload : load_processed conv B path =
      preprocess_input ⟨[1, h, w, 3], (resized_arr_of conv B path).data⟩ := by
    unfold load_processed expand_dims0
    rw [hsh]
  rw [hload]
  exact roundtrip_core _ h w hlen hint

/-- C8: deprocessing a rank-2 or rank-5 tensor fails with the shape error;
only a rank-4 input has its batch dimension removed, after which the
tensor must be exactly 3-dimensional. -/
theorem C8_deprocess_rank_error :
    (∀ x : NdArray, x.shape.length = 2 ∨ x.shape.length = 5 →
      ∃ e, deprocess_img x = .error e) ∧
    (∀ (x : NdArray) (hh ww : ℕ), x.shape = [1, hh, ww, 3] →
      ∃ u, deprocess_img x = .ok u ∧ u.shape = [hh, ww, 3]) := by
  constructor
  · rintro ⟨sh, data⟩ h
    rcases h with h2 | h5
    · obtain ⟨a, b, rfl⟩ := List.length_eq_two.mp h2
      exact ⟨_, rfl⟩
    · simp only at h5
      rcases sh with _ | ⟨a, _ | ⟨b, _ | ⟨c, _ | ⟨d, _ | ⟨e, t⟩⟩⟩⟩⟩ <;>
        simp only [List.length_cons, List.length_nil] at h5 <;> try omega
      exact ⟨_, rfl⟩
  · intro x hh ww h
    obtain ⟨u, hu, hsh, _⟩ := deprocess_img_ok x hh ww h
    exact ⟨u, hu, hsh⟩

/-- Witness for C8 at a rank-2, a rank-5 and a rank-4 concrete input. -/
theorem C8_witness :
    (∃ e, deprocess_img ⟨[2, 3], [0, 0, 0, 0, 0, 0]⟩ = .error e) ∧
    (∃ e, deprocess_img ⟨[1, 1, 2, 3, 1], [0, 0, 0, 0, 0, 0]⟩ = .error e) ∧
    (∃ u, deprocess_img ⟨[1, 1, 1, 3], [0, 0, 0]⟩ = .ok u ∧ u.shape = [1, 1, 3]) :=
  ⟨C8_deprocess_rank_error.1 ⟨[2, 3], [0, 0, 0, 0, 0, 0]⟩ (by decide),
   C8_deprocess_rank_error.1 ⟨[1, 1, 2, 3, 1], [0, 0, 0, 0, 0, 0]⟩ (by decide),
   C8_deprocess_rank_error.2 ⟨[1, 1, 1, 3], [0, 0, 0]⟩ 1 1 (by decide)⟩

lemma fle_refl (a : FVal) : FVal.fle a a := Or.inl rfl

lemma flt_trans {a b c : FVal} (h1 : FVal.flt a b = true) (h2 : FVal.flt b c = true) :
    FVal.flt a c = true := by
  cases a <;> cases b <;> cases c <;> simp_all [FVal.flt]
  linarith

lemma fle_trans (a b c : FVal) (h1 : FVal.fle a b) (h2 : FVal.fle b c) : FVal.fle a c := by
  rcases h1 with rfl | h1
  · exact h2
  · rcases h2 with rfl | h2
    · exact Or.inr h1
    · exact Or.inr (flt_trans h1 h2)

lemma stepOf_cases {O : Type} (B : Backend O) (cfg : LossConfig) (di : ℚ) (i : ℕ)
    (s s' : LoopState O) (h : stepOf B cfg di i s = .ok s') :
    s'.init_image = clip_by_value_ch
        (B.applyGradients s.optS (B.computeGrads cfg s.init_image).1 s.init_image).2 ∧
    ((FVal.flt (total_loss_at B cfg s.init_image) s.best_loss = true ∧
       s'.best_loss = total_loss_at B cfg s.init_image ∧
       ∃ u, deprocess_img s'.init_image = .ok u ∧ s'.best_img = some u)
     ∨ (FVal.flt (total_loss_at B cfg s.init_image) s.best_loss = false ∧
        s'.best_loss = s.best_loss ∧ s'.best_img = s.best_img)) := by
  simp only [stepOf] at h
  cases hdep : deprocess_img (clip_by_value_ch
      (B.applyGradients s.optS (B.computeGrads cfg s.init_image).1 s.init_image).2) with
  | ok u =>
    cases hflt : FVal.flt ((B.computeGrads cfg s.init_image).2.1) s.best_loss with
    | true =>
      simp only [hflt, hdep, if_true] at h
      by_cases hmod : pyFMod (i : ℚ) di = 0
      · rw [if_pos hmod] at h
        try simp only [hdep] at h
        cases h
        exact ⟨rfl, Or.inl ⟨hflt, rfl, u, hdep, rfl⟩⟩
      · rw [if_neg hmod] at h
        cases h
        exact ⟨rfl, Or.inl ⟨hflt, rfl, u, hdep, rfl⟩⟩
    | false =>
      simp only [hflt, Bool.false_eq_true, if_false] at h
      by_cases hmod : pyFMod (i : ℚ) di = 0
      · rw [if_pos hmod] at h
        try simp only [hdep] at h
        cases h
        exact ⟨rfl, Or.inr ⟨hflt, rfl, rfl⟩⟩
      · rw [if_neg hmod] at h
        cases h
        exact ⟨rfl, Or.inr ⟨hflt, rfl, rfl⟩⟩
  | error e =>
    cases hflt : FVal.flt ((B.computeGrads cfg s.init_image).2.1) s.best_loss with
    | true =>
      simp only [hflt, hdep, if_true] at h
      cases h
    | false =>
      simp only [hflt, Bool.false_eq_true, if_false] at h
      by_cases hmod : pyFMod (i : ℚ) di = 0
      · rw [if_pos hmod] at h
        try simp only [hdep] at h
        cases h
      · rw [if_neg hmod] at h
        cases h
        exact ⟨rfl, Or.inr ⟨hflt, rfl, rfl⟩⟩

lemma stepOf_best_le {O : Type} (B : Backend O) (cfg : LossConfig) (di : ℚ) (i : ℕ)
    (s s' : LoopState O) (h : stepOf B cfg di i s = .ok s') :
    FVal.fle s'.best_loss s.best_loss := by
  rcases (stepOf_cases B cfg di i s s' h).2 with ⟨hflt, hbl, _⟩ | ⟨_, hbl, _⟩
  · rw [hbl]; exact Or.inr hflt
  · rw [hbl]; exact fle_refl _

lemma styleLoop_append {O : Type} (B : Backend O) (cfg : LossConfig) (di : ℚ)
    (l1 l2 : List ℕ) (s : LoopState O) :
    styleLoop B cfg di (l1 ++ l2) s =
      match styleLoop B cfg di l1 s with
      | .ok s1 => styleLoop B cfg di l2 s1
      | .error e => .error e := by
  induction l1 generalizing s with
  | nil => simp [styleLoop]
  | cons i t ih =>
    simp only [List.cons_append, styleLoop]
    cases stepOf B cfg di i s with
    | ok s1 => exact ih s1
    | error e => rfl

lemma styleLoop_best_le {O : Type} (B : Backend O) (cfg : LossConfig) (di : ℚ)
    (l : List ℕ) (s s' : LoopState O) (h : styleLoop B cfg di l s = .ok s') :
    FVal.fle s'.best_loss s.best_loss := by
  induction l generalizing s with
  | nil =>
    simp only [styleLoop] at h
    cases h
    exact fle_refl _
  | cons i t ih =>
    simp only [styleLoop] at h
    cases hstep : stepOf B cfg di i s with
    | error e => rw [hstep] at h; cases h
    | ok s1 =>
      rw [hstep] at h
      exact fle_trans _ _ _ (ih s1 h) (stepOf_best_le B cfg di i s s1 hstep)

lemma run_style_transfer_eq {O : Type} (conv : ImageConverter) (B : Backend O)
    (cw sw : ℚ) (tr : List String) :
    run_style_transfer conv B cw sw tr =
      ((match styleLoop B (cfgOf conv B cw sw) (display_interval_of conv)
          (List.range conv.iteration)
          ⟨B.optInit, init_image_of conv B, FVal.inf, none, []⟩ with
        | .ok s => .ok s.best_img
        | .error e => .error e),
       tr ++ [conv.content_path, conv.style_path, conv.content_path]) := by
  unfold run_style_transfer cfgOf features_of init_image_of display_interval_of
    run_gradient_descent load_and_process_img
  dsimp only
  cases hl : styleLoop B _ _ _ _ <;> simp

lemma clip_shape (x : NdArray) : (clip_by_value_ch x).shape = x.shape := rfl

lemma stepOf_ok_shape {O : Type} (B : Backend O) (cfg : LossConfig) (di : ℚ) (i : ℕ)
    (s : LoopState O) (hh ww : ℕ)
    (hopt : ∀ o g img, ((B.applyGradients o g img).2).shape = img.shape)
    (hsh : s.init_image.shape = [1, hh, ww, 3]) :
    ∃ s', stepOf B cfg di i s = .ok s' ∧
      s'.init_image.shape = [1, hh, ww, 3] ∧
      ((FVal.flt (total_loss_at B cfg s.init_image) s.best_loss = true ∧
         ∃ u, goodU8 hh ww u ∧ s'.best_img = some u) ∨
       (FVal.flt (total_loss_at B cfg s.init_image) s.best_loss = false ∧
        s'.best_loss = s.best_loss ∧ s'.best_img = s.best_img)) := by
  have hCsh : (clip_by_value_ch
      (B.applyGradients s.optS (B.computeGrads cfg s.init_image).1 s.init_image).2).shape =
      [1, hh, ww, 3] := by
    rw [clip_shape, hopt]
    exact hsh
  obtain ⟨u, hu, hush, hudata⟩ := deprocess_img_ok _ hh ww hCsh
  have hex : ∃ s', stepOf B cfg di i s = .ok s' := by
    simp only [stepOf]
    cases hflt : FVal.flt ((B.computeGrads cfg s.init_image).2.1) s.best_loss with
    | false =>
      simp only [hflt, Bool.false_eq_true, if_false]
      by_cases hmod : pyFMod (i : ℚ) di = 0
      · rw [if_pos hmod, hu]
        exact ⟨_, rfl⟩
      · rw [if_neg hmod]
        exact ⟨_, rfl⟩
    | true =>
      simp only [hflt, if_true]
      rw [hu]
      dsimp only
      by_cases hmod : pyFMod (i : ℚ) di = 0
      · rw [if_pos hmod, hu]
        exact ⟨_, rfl⟩
      · rw [if_neg hmod]
        exact ⟨_, rfl⟩
  obtain ⟨s', hs'⟩ := hex
  have hc := stepOf_cases B cfg di i s s' hs'
  refine ⟨s', hs', ?_, ?_⟩
  · rw [hc.1]
    exact hCsh
  · rcases hc.2 with ⟨hf, hbl, u0, hdep0, hbi⟩ | ⟨hf, hbl, hbi⟩
    · left
      rw [hc.1, hu] at hdep0
      cases hdep0
      exact ⟨hf, u, ⟨hush, hudata⟩, hbi⟩
    · right
      exact ⟨hf, hbl, hbi⟩

lemma styleLoop_ok_inv {O : Type} (B : Backend O) (cfg : LossConfig) (di : ℚ)
    (hh ww : ℕ)
    (hopt : ∀ o g img, ((B.applyGradients o g img).2).shape = img.shape) :
    ∀ (l : List ℕ) (s : LoopState O),
      s.init_image.shape = [1, hh, ww, 3] →
      (s.best_img = none ∨ ∃ u, goodU8 hh ww u ∧ s.best_img = some u) →
      ∃ s', styleLoop B cfg di l s = .ok s' ∧
        s'.init_image.shape = [1, hh, ww, 3] ∧
        (s'.best_img = none ∨ ∃ u, goodU8 hh ww u ∧ s'.best_img = some u) ∧
        (s.best_img ≠ none → s'.best_img ≠ none) := by
  intro l
  induction l with
  | nil =>
    intro s h1 h2
    exact ⟨s, rfl, h1, h2, fun h => h⟩
  | cons i t ih =>
    intro s h1 h2
    obtain ⟨s1, hstep, hsh1, hbest1⟩ := stepOf_ok_shape B cfg di i s hh ww hopt h1
    have h2' : s1.best_img = none ∨ ∃ u, goodU8 hh ww u ∧ s1.best_img = some u := by
      rcases hbest1 with ⟨_, u, hgu, hbi⟩ | ⟨_, _, hbi⟩
      · exact Or.inr ⟨u, hgu, hbi⟩
      · rw [hbi]
        exact h2
    obtain ⟨s', hloop, hsh', hbest', hprop⟩ := ih s1 hsh1 h2'
    refine ⟨s', ?_, hsh', hbest', ?_⟩
    · simp only [styleLoop, hstep]
      exact hloop
    · intro hne
      apply hprop
      rcases hbest1 with ⟨_, u, _, hbi⟩ | ⟨_, _, hbi⟩
      · rw [hbi]; simp
      · rw [hbi]; exact hne

lemma run_ok_of {O : Type} (conv : ImageConverter) (B : Backend O) (cw sw : ℚ)
    (tr : List String) (hh ww : ℕ)
    (hinit : (init_image_of conv B).shape = [1, hh, ww, 3])
    (hopt : ∀ o g img, ((B.applyGradients o g img).2).shape = img.shape)
    (hiter : 1 ≤ conv.iteration)
    (hfin : ∃ q, total_loss_at B (cfgOf conv B cw sw) (init_image_of conv B) = .fin q) :
    ∃ u, (run_style_transfer conv B cw sw tr).1 = .ok (some u) ∧ goodU8 hh ww u := by
  rw [run_style_transfer_eq]
  dsimp only
  obtain ⟨n, hn⟩ : ∃ n, conv.iteration = n + 1 := ⟨conv.iteration - 1, by omega⟩
  rw [hn, List.range_succ_eq_map]
  obtain ⟨s1, hstep, hsh1, hbest1⟩ := stepOf_ok_shape B (cfgOf conv B cw sw)
    (display_interval_of conv) 0
    ⟨B.optInit, init_image_of conv B, FVal.inf, none, []⟩ hh ww hopt hinit
  obtain ⟨q, hq⟩ := hfin
  have hflt : FVal.flt (total_loss_at B (cfgOf conv B cw sw)
      (⟨B.optInit, init_image_of conv B, FVal.inf, none, []⟩ :
        LoopState O).init_image)
      (⟨B.optInit, init_image_of conv B, FVal.inf, none, []⟩ :
        LoopState O).best_loss = true := by
    show FVal.flt (total_loss_at B (cfgOf conv B cw sw) (init_image_of conv B)) FVal.inf = true
    rw [hq]
    rfl
  rcases hbest1 with ⟨_, u1, hgu1, hbi1⟩ | ⟨hfalse, _, _⟩
  · obtain ⟨s', hloop, hsh', hbest', hprop⟩ := styleLoop_ok_inv B (cfgOf conv B cw sw)
      (display_interval_of conv) hh ww hopt ((List.range n).map Nat.succ) s1 hsh1
      (Or.inr ⟨u1, hgu1, hbi1⟩)
    have hne : s'.best_img ≠ none := hprop (by rw [hbi1]; simp)
    rcases hbest' with h0 | ⟨u, hgu, hbi⟩
    · exact absurd h0 hne
    · refine ⟨u, ?_, hgu⟩
      simp only [styleLoop, hstep, hloop, hbi]
  · rw [hflt] at hfalse
    cases hfalse

lemma flt_nan_left (b : FVal) : FVal.flt .nan b = false := by
  cases b <;> rfl

lemma styleLoop_none_of_nan {O : Type} (B : Backend O) (cfg : LossConfig) (di : ℚ)
    (hh ww : ℕ)
    (hopt : ∀ o g img, ((B.applyGradients o g img).2).shape = img.shape)
    (hnan : ∀ img, total_loss_at B cfg img = .nan) :
    ∀ (l : List ℕ) (s : LoopState O), s.init_image.shape = [1, hh, ww, 3] →
      s.best_img = none →
      ∃ s', styleLoop B cfg di l s = .ok s' ∧ s'.best_img = none := by
  intro l
  induction l with
  | nil =>
    intro s h1 h2
    exact ⟨s, rfl, h2⟩
  | cons i t ih =>
    intro s h1 h2
    obtain ⟨s1, hstep, hsh1, hbest1⟩ := stepOf_ok_shape B cfg di i s hh ww hopt h1
    have hfalse : FVal.flt (total_loss_at B cfg s.init_image) s.best_loss = false := by
      rw [hnan]
      exact flt_nan_left _
    rcases hbest1 with ⟨htrue, _⟩ | ⟨_, _, hbi⟩
    · rw [hfalse] at htrue
      cases htrue
    · obtain ⟨s', hloop, hbn⟩ := ih s1 hsh1 (by rw [hbi]; exact h2)
      refine ⟨s', ?_, hbn⟩
      simp only [styleLoop, hstep]
      exact hloop

lemma run_none_of_nan {O : Type} (conv : ImageConverter) (B : Backend O) (cw sw : ℚ)
    (tr : List String) (hh ww : ℕ)
    (hinit : (init_image_of conv B).shape = [1, hh, ww, 3])
    (hopt : ∀ o g img, ((B.applyGradients o g img).2).shape = img.shape)
    (hnan : ∀ img, total_loss_at B (cfgOf conv B cw sw) img = .nan) :
    (run_style_transfer conv B cw sw tr).1 = .ok none := by
  rw [run_style_transfer_eq]
  dsimp only
  obtain ⟨s', hloop, hbn⟩ := styleLoop_none_of_nan B (cfgOf conv B cw sw)
    (display_interval_of conv) hh ww hopt hnan (List.range conv.iteration)
    ⟨B.optInit, init_image_of conv B, FVal.inf, none, []⟩ hinit rfl
  simp only [hloop, hbn]

lemma clamp_bounds (v lo hi : ℚ) (h : lo ≤ hi) :
    lo ≤ min (max v lo) hi ∧ min (max v lo) hi ≤ hi :=
  ⟨le_min (le_max_right v lo) h, min_le_right _ _⟩

/-- C3: throughout a run of run_style_transfer, best_loss is
non-increasing across iterations, and best_img is overwritten only in an
iteration whose total loss is strictly lower than the previous best_loss;
the run starts the loop from best_loss = +infinity and best_img absent. -/
theorem C3_best_tracking :
    (∀ (O : Type) (B : Backend O) (cfg : LossConfig) (di : ℚ) (i : ℕ)
        (s s' : LoopState O), stepOf B cfg di i s = .ok s' →
        FVal.fle s'.best_loss s.best_loss) ∧
    (∀ (O : Type) (B : Backend O) (cfg : LossConfig) (di : ℚ) (i : ℕ)
        (s s' : LoopState O), stepOf B cfg di i s = .ok s' →
        s'.best_img ≠ s.best_img →
        FVal.flt (total_loss_at B cfg s.init_image) s.best_loss = true) ∧
    (∀ (O : Type) (B : Backend O) (cfg : LossConfig) (di : ℚ) (l1 l2 : List ℕ)
        (s s1 s2 : LoopState O),
        styleLoop B cfg di l1 s = .ok s1 → styleLoop B cfg di (l1 ++ l2) s = .ok s2 →
        FVal.fle s2.best_loss s1.best_loss) ∧
    (∀ (O : Type) (conv : ImageConverter) (B : Backend O) (cw sw : ℚ) (tr : List String),
        (run_style_transfer conv B cw sw tr).1 =
          match styleLoop B (cfgOf conv B cw sw) (display_interval_of conv)
              (List.range conv.iteration)
              ⟨B.optInit, init_image_of conv B, FVal.inf, none, []⟩ with
          | .ok s => .ok s.best_img
          | .error e => .error e) := by
  refine ⟨?_, ?_, ?_, ?_⟩
  · intro O B cfg di i s s' h
    exact stepOf_best_le B cfg di i s s' h
  · intro O B cfg di i s s' h hne
    rcases (stepOf_cases B cfg di i s s' h).2 with ⟨hf, _, _⟩ | ⟨_, _, hbi⟩
    · exact hf
    · exact absurd hbi hne
  · intro O B cfg di l1 l2 s s1 s2 h1 h2
    rw [styleLoop_append] at h2
    rw [h1] at h2
    exact styleLoop_best_le B cfg di l2 s1 s2 h2
  · intro O conv B cw sw tr
    rw [run_style_transfer_eq]

/-- C4: after every optimizer update in the loop body the candidate image
is the element-wise per-channel clip of the updated tensor to
[-mean_c, 255 - mean_c], so at every iteration boundary each element of
the candidate tensor lies within the valid preprocessed-pixel range. -/
theorem C4_clip_invariant :
    ∀ (O : Type) (B : Backend O) (cfg : LossConfig) (di : ℚ) (i : ℕ)
      (s s' : LoopState O), stepOf B cfg di i s = .ok s' →
      s'.init_image = clip_by_value_ch
        (B.applyGradients s.optS (B.computeGrads cfg s.init_image).1 s.init_image).2 ∧
      (s'.init_image.shape.getLastD 0 = 3 →
        ∀ p, p < s'.init_image.data.length →
          -(norm_means.getD (p % 3) 0) ≤ s'.init_image.data.getD p 0 ∧
          s'.init_image.data.getD p 0 ≤ 255 - norm_means.getD (p % 3) 0) := by
  intro O B cfg di i s s' h
  have hc := stepOf_cases B cfg di i s s' h
  refine ⟨hc.1, ?_⟩
  intro hlast p hp
  rw [hc.1] at hlast hp ⊢
  rw [clip_shape] at hlast
  have hp' : p < (B.applyGradients s.optS (B.computeGrads cfg s.init_image).1
      s.init_image).2.data.length := by
    simpa [clip_by_value_ch, length_mapIdxD] using hp
  have hgd : (clip_by_value_ch (B.applyGradients s.optS
      (B.computeGrads cfg s.init_image).1 s.init_image).2).data.getD p 0 =
      min (max ((B.applyGradients s.optS (B.computeGrads cfg s.init_image).1
          s.init_image).2.data.getD p 0)
        (min_vals.getD (p % 3) 0)) (max_vals.getD (p % 3) 0) := by
    simp only [clip_by_value_ch]
    rw [getD_mapIdxD _ _ _ hp', hlast]
  rw [hgd]
  have h3 : p % 3 = 0 ∨ p % 3 = 1 ∨ p % 3 = 2 := by omega
  rcases h3 with hk | hk | hk <;> rw [hk] <;>
    simp only [min_vals, max_vals, norm_means, List.map_cons, List.map_nil,
      List.getD_cons_zero, List.getD_cons_succ] <;>
    exact clamp_bounds _ _ _ (by norm_num)

/-- C9: when the configured iteration count is 0 and both image paths load
successfully, run_style_transfer raises no error and returns no best
image. -/
theorem C9_zero_iterations {O : Type} (conv : ImageConverter) (B : Backend O)
    (cw sw : ℚ) (tr : List String) (h : conv.iteration = 0) :
    (run_style_transfer conv B cw sw tr).1 = .ok none := by
  rw [run_style_transfer_eq]
  dsimp only
  rw [h]
  rfl

/-- C10: for iteration count at least 1, if the total loss of the first
iteration is a finite number then run_style_transfer returns a non-absent
image, because the initial best_loss of +infinity exceeds every finite
loss; conversely, if every total loss is NaN the run completes all
iterations and returns None. -/
theorem C10_finite_first_loss :
    (∀ (O : Type) (conv : ImageConverter) (B : Backend O) (cw sw : ℚ)
        (tr : List String) (hh ww : ℕ),
        (init_image_of conv B).shape = [1, hh, ww, 3] →
        (∀ o g img, ((B.applyGradients o g img).2).shape = img.shape) →
        1 ≤ conv.iteration →
        (∃ q, total_loss_at B (cfgOf conv B cw sw) (init_image_of conv B) = .fin q) →
        ∃ u, (run_style_transfer conv B cw sw tr).1 = .ok (some u)) ∧
    (∀ (O : Type) (conv : ImageConverter) (B : Backend O) (cw sw : ℚ)
        (tr : List String) (hh ww : ℕ),
        (init_image_of conv B).shape = [1, hh, ww, 3] →
        (∀ o g img, ((B.applyGradients o g img).2).shape = img.shape) →
        (∀ img, total_loss_at B (cfgOf conv B cw sw) img = .nan) →
        (run_style_transfer conv B cw sw tr).1 = .ok none) := by
  constructor
  · intro O conv B cw sw tr hh ww hinit hopt hiter hfin
    obtain ⟨u, hru, _⟩ := run_ok_of conv B cw sw tr hh ww hinit hopt hiter hfin
    exact ⟨u, hru⟩
  · intro O conv B cw sw tr hh ww hinit hopt hnan
    exact run_none_of_nan conv B cw sw tr hh ww hinit hopt hnan

lemma pyRound_natCast (n : ℕ) : pyRound ((n : ℚ)) = (n : ℤ) := by
  simp only [pyRound, Int.floor_natCast]
  norm_num

lemma resized_square {O : Type} (conv : ImageConverter) (B : Backend O) (path : String)
    (hopen : B.openImage path = ⟨64, 64⟩) :
    resized_arr_of conv B path = B.loadResized path conv.max_dim conv.max_dim := by
  simp only [resized_arr_of, hopen]
  have harg : ((64 : ℕ) : ℚ) * ((conv.max_dim : ℚ) / ((max 64 64 : ℕ) : ℚ)) =
      ((conv.max_dim : ℕ) : ℚ) := by
    norm_num
    field_simp
  rw [harg, pyRound_natCast, Int.toNat_natCast]

lemma init_shape_of {O : Type} (conv : ImageConverter) (B : Backend O)
    (hopen : B.openImage conv.content_path = ⟨64, 64⟩)
    (hload : (B.loadResized conv.content_path conv.max_dim conv.max_dim).shape =
      [conv.max_dim, conv.max_dim, 3]) :
    (init_image_of conv B).shape = [1, conv.max_dim, conv.max_dim, 3] := by
  unfold init_image_of load_processed
  rw [resized_square conv B conv.content_path hopen]
  simp only [preprocess_input, expand_dims0]
  rw [hload]

/-- C1 (amended): for two 64 x 64 input images, any maximum dimension
bound max_dim of at least 64 and iteration count 5, run_style_transfer
completes without error and returns an array of shape
[max_dim, max_dim, 3] (the input is rescaled so its longer side equals
max_dim) whose values all fit in 8 unsigned bits. -/
theorem C1_amended_output_shape {O : Type} (conv : ImageConverter) (B : Backend O)
    (cw sw : ℚ) (tr : List String)
    (hcontent : B.openImage conv.content_path = ⟨64, 64⟩)
    (_hstyle : B.openImage conv.style_path = ⟨64, 64⟩)
    (hload : (B.loadResized conv.content_path conv.max_dim conv.max_dim).shape =
      [conv.max_dim, conv.max_dim, 3])
    (hopt : ∀ o g img, ((B.applyGradients o g img).2).shape = img.shape)
    (_hdim : 64 ≤ conv.max_dim)
    (hiter : conv.iteration = 5)
    (hfin : ∃ q, total_loss_at B (cfgOf conv B cw sw) (init_image_of conv B) = .fin q) :
    ∃ u, (run_style_transfer conv B cw sw tr).1 = .ok (some u) ∧
      u.shape = [conv.max_dim, conv.max_dim, 3] ∧ ∀ v ∈ u.data, v < 256 := by
  obtain ⟨u, hru, hgu⟩ := run_ok_of conv B cw sw tr conv.max_dim conv.max_dim
    (init_shape_of conv B hcontent hload) hopt (by omega) hfin
  exact ⟨u, hru, hgu.1, hgu.2⟩

/-- Counterexample to C1 as stated: with two 64 x 64 inputs, max_dim = 128
(which is at least 64) and iteration count 5, the returned array has shape
[128, 128, 3], not [64, 64, 3]. -/
theorem C1_counterexample :
    resultShape (run_style_transfer testConv128 testBackend 1000 (1/100) []).1 =
      some [128, 128, 3] ∧
    resultShape (run_style_transfer testConv128 testBackend 1000 (1/100) []).1 ≠
      some [64, 64, 3] := by
  have hinit : (init_image_of testConv128 testBackend).shape = [1, 128, 128, 3] :=
    init_shape_of testConv128 testBackend rfl rfl
  obtain ⟨u, hru, hgu⟩ := run_ok_of testConv128 testBackend 1000 (1/100) [] 128 128
    hinit (fun o g img => rfl) (by decide) ⟨0, rfl⟩
  constructor
  · rw [hru]
    show some u.shape = some [128, 128, 3]
    rw [hgu.1]
  · rw [hru]
    show some u.shape ≠ some [64, 64, 3]
    rw [hgu.1]
    decide

/-- Witness for the amended C1 at max_dim = 64, where the output shape is
[64, 64, 3]. -/
theorem C1_witness :
    testBackend.openImage testConv.content_path = ⟨64, 64⟩ ∧
    (testBackend.loadResized testConv.content_path testConv.max_dim
      testConv.max_dim).shape = [testConv.max_dim, testConv.max_dim, 3] ∧
    64 ≤ testConv.max_dim ∧ testConv.iteration = 5 ∧
    ∃ u, (run_style_transfer testConv testBackend 1000 (1/100) []).1 = .ok (some u) ∧
      u.shape = [testConv.max_dim, testConv.max_dim, 3] ∧ ∀ v ∈ u.data, v < 256 :=
  ⟨rfl, rfl, by decide, rfl,
   C1_amended_output_shape testConv testBackend 1000 (1/100) [] rfl rfl rfl
     (fun o g img => rfl) (by decide) rfl ⟨0, rfl⟩⟩

/-- C2 (amended): during one call to run_style_transfer all image loads
happen at setup before the optimization loop, in the order content path,
style path, content path: the style path is loaded and preprocessed
exactly once, while the content path is loaded and preprocessed twice
(once for feature extraction and once to initialise the candidate
image). -/
theorem C2_amended_load_trace :
    ∀ (O : Type) (conv : ImageConverter) (B : Backend O) (cw sw : ℚ) (tr : List String),
      (run_style_transfer conv B cw sw tr).2 =
        tr ++ [conv.content_path, conv.style_path, conv.content_path] := by
  intro O conv B cw sw tr
  rw [run_style_transfer_eq]

/-- Counterexample to C2 as stated: in a concrete run the content path is
loaded twice, not exactly once. -/
theorem C2_counterexample :
    ((run_style_transfer testConv0 testBackend 1000 (1/100) []).2).count "c.png" = 2 ∧
    ((run_style_transfer testConv0 testBackend 1000 (1/100) []).2).count "c.png" ≠ 1 := by
  rw [run_style_transfer_eq testConv0 testBackend 1000 (1/100) []]
  constructor <;> decide


/-- Witness for C9 at a concrete converter with iteration count 0. -/
theorem C9_witness :
    testConv0.iteration = 0 ∧
    (run_style_transfer testConv0 testBackend 1000 (1/100) []).1 = .ok none :=
  ⟨rfl, C9_zero_iterations testConv0 testBackend 1000 (1/100) [] rfl⟩

/-- Witness for C10: a backend with finite losses yields a non-absent
result, and a backend whose losses are all NaN yields None. -/
theorem C10_witness :
    (init_image_of testConv testBackend).shape = [1, 64, 64, 3] ∧
    (∃ u, (run_style_transfer testConv testBackend 1000 (1/100) []).1 = .ok (some u)) ∧
    (∀ img, total_loss_at nanBackend (cfgOf testConv nanBackend 1000 (1/100)) img = .nan) ∧
    (run_style_transfer testConv nanBackend 1000 (1/100) []).1 = .ok none := by
  have hinit : (init_image_of testConv testBackend).shape = [1, 64, 64, 3] :=
    init_shape_of testConv testBackend rfl rfl
  have hinit2 : (init_image_of testConv nanBackend).shape = [1, 64, 64, 3] :=
    init_shape_of testConv nanBackend rfl rfl
  refine ⟨hinit, ?_, fun img => rfl, ?_⟩
  · exact C10_finite_first_loss.1 Unit testConv testBackend 1000 (1/100) [] 64 64
      hinit (fun o g img => rfl) (by decide) ⟨0, rfl⟩
  · exact C10_finite_first_loss.2 Unit testConv nanBackend 1000 (1/100) [] 64 64
      hinit2 (fun o g img => rfl) (fun img => rfl)

/-- Witness for C5 at a concrete 1 x 1 image with pixel values
[5, 10, 200]. -/
theorem C5_witness :
    (resized_arr_of pixelConv pixelBackend "c.png").shape = [1, 1, 3] ∧
    (resized_arr_of pixelConv pixelBackend "c.png").data.length = 1 * 1 * 3 ∧
    ∃ u, deprocess_img (load_processed pixelConv pixelBackend "c.png") = .ok u ∧
      u.shape = [1, 1, 3] ∧
      u.data.map (fun n : ℕ => (n : ℚ)) =
        (resized_arr_of pixelConv pixelBackend "c.png").data := by
  have hint : ∀ v ∈ (resized_arr_of pixelConv pixelBackend "c.png").data,
      ∃ n : ℕ, v = (n : ℚ) ∧ n ≤ 255 := by
    intro v hv
    have hv2 : v ∈ [(5 : ℚ), 10, 200] := hv
    simp only [List.mem_cons, List.not_mem_nil, or_false] at hv2
    rcases hv2 with rfl | rfl | rfl
    · exact ⟨5, by norm_num, by norm_num⟩
    · exact ⟨10, by norm_num, by norm_num⟩
    · exact ⟨200, by norm_num, by norm_num⟩
  exact ⟨rfl, rfl, C5_roundtrip pixelConv pixelBackend "c.png" 1 1 rfl rfl hint⟩

/-- Witness for C3 at a concrete step that strictly improves the best
loss, and a concrete two-iteration loop. -/
theorem C3_witness :
    stepOf testBackend testCfg 0 1 testState = .ok testState1 ∧
    FVal.fle testState1.best_loss testState.best_loss ∧
    testState1.best_img ≠ testState.best_img ∧
    FVal.flt (total_loss_at testBackend testCfg testState.init_image)
      testState.best_loss = true ∧
    styleLoop testBackend testCfg 0 ([1] ++ [2]) testState = .ok testState1 ∧
    FVal.fle testState1.best_loss testState1.best_loss := by
  have hstep : stepOf testBackend testCfg 0 1 testState = .ok testState1 := by
    norm_num [stepOf, testBackend, testCfg, testState, testState1, clip_by_value_ch,
      mapIdxD, pyFMod, FVal.flt, deprocess_img, np_squeeze0]
  have hstep2 : stepOf testBackend testCfg 0 2 testState1 = .ok testState1 := by
    norm_num [stepOf, testBackend, testCfg, testState1, clip_by_value_ch,
      mapIdxD, pyFMod, FVal.flt]
  have hloop1 : styleLoop testBackend testCfg 0 [1] testState = .ok testState1 := by
    simp only [styleLoop, hstep]
  have hloop12 : styleLoop testBackend testCfg 0 ([1] ++ [2]) testState = .ok testState1 := by
    simp only [List.cons_append, List.nil_append, styleLoop, hstep, hstep2]
  refine ⟨hstep,
    C3_best_tracking.1 Unit testBackend testCfg 0 1 testState testState1 hstep,
    by decide,
    C3_best_tracking.2.1 Unit testBackend testCfg 0 1 testState testState1 hstep (by decide),
    hloop12,
    C3_best_tracking.2.2.1 Unit testBackend testCfg 0 [1] [2] testState testState1
      testState1 hloop1 hloop12⟩

/-- Witness for C4 at a concrete step whose candidate image starts with
the out-of-range values [-200, 0, 300] and is clipped to
[-103.939, 0, 131.32]. -/
theorem C4_witness :
    stepOf nanBackend testCfg 0 1 clipState = .ok clipState1 ∧
    clipState1.init_image = clip_by_value_ch
      ((nanBackend.applyGradients clipState.optS
        ((nanBackend.computeGrads testCfg clipState.init_image).1)
        clipState.init_image).2) ∧
    clipState1.init_image.shape.getLastD 0 = 3 ∧
    (∀ p, p < clipState1.init_image.data.length →
      -(norm_means.getD (p % 3) 0) ≤ clipState1.init_image.data.getD p 0 ∧
      clipState1.init_image.data.getD p 0 ≤ 255 - norm_means.getD (p % 3) 0) := by
  have hstep : stepOf nanBackend testCfg 0 1 clipState = .ok clipState1 := by
    norm_num [stepOf, nanBackend, testCfg, clipState, clipState1, clip_by_value_ch,
      mapIdxD, pyFMod, FVal.flt, min_vals, max_vals, norm_means,
      List.range_succ, List.range_zero, min_def, max_def]
  have h := C4_clip_invariant Unit nanBackend testCfg 0 1 clipState clipState1 hstep
  exact ⟨hstep, h.1, rfl, h.2 rfl⟩
